import Mathlib

/-!
Shallow embedding of the credit-ledger core of the ai-commenting-sidekick
backend: the credit_purchases store, the balance queries, the SQL
`use_credits` / `get_available_credits` / `decrement_credit` functions, the
request-handler deduction loops (the analyze-batch while-loop and the
optimistic-lock retry loop), the Stripe webhook handlers, and a small
interleaving semantics for concurrent deduction.  Times are modelled as
naturals (`now < t` is `expires_at > NOW()`), credits as integers, user and
row ids as naturals.
-/

namespace Sidekick

/-- The `payment_status` column of `credit_purchases`
(complete-database-setup.sql: `pending`, `completed`, `failed`). -/
inductive PayStatus
  | pending
  | completed
  | failed
deriving DecidableEq, Repr

/-- A row of the `credit_purchases` table, restricted to the columns the
ledger code reads: id, user_id, subscription_id, credits, remaining_credits,
expires_at, payment_status, created_at. -/
structure Purchase where
  pid : Nat
  userId : Nat
  subscriptionId : Option Nat
  credits : Int
  remaining : Int
  expiresAt : Option Nat
  paymentStatus : PayStatus
  createdAt : Nat
deriving DecidableEq, Repr

/-- WHERE clause shared by `get_available_credits` and `use_credits`
(complete-database-setup.sql): `user_id = p_user_id AND expires_at > NOW()
AND payment_status = 'completed' AND remaining_credits > 0`.  A NULL
`expires_at` fails the strict comparison. -/
def eligSql (uid now : Nat) (p : Purchase) : Bool :=
  decide (p.userId = uid) &&
  (match p.expiresAt with
   | some t => decide (now < t)
   | none => false) &&
  decide (p.paymentStatus = PayStatus.completed) &&
  decide (0 < p.remaining)

/-- WHERE clause of the deduction queries in analyze-batch.js and the
part_000 retry loop: `eq(user_id) . gt(remaining_credits, 0) .
or(expires_at.is.null, expires_at.gt.now)` — no payment_status filter,
and a NULL expiry is accepted. -/
def eligJs (uid now : Nat) (p : Purchase) : Bool :=
  decide (p.userId = uid) &&
  decide (0 < p.remaining) &&
  (match p.expiresAt with
   | some t => decide (now < t)
   | none => true)

/-- WHERE clause of credits.js `handleGetCredits` and the part_000
pre-compute check: `gt(expires_at, now) . gt(remaining_credits, 0)` —
no payment_status filter, NULL expiry excluded by the `gt`. -/
def eligJsStrict (uid now : Nat) (p : Purchase) : Bool :=
  decide (p.userId = uid) &&
  (match p.expiresAt with
   | some t => decide (now < t)
   | none => false) &&
  decide (0 < p.remaining)

/-- `SUM(remaining_credits)` over a list of rows. -/
def sumRemaining (ps : List Purchase) : Int :=
  (ps.map Purchase.remaining).sum

/-- The SQL function `get_available_credits` of
complete-database-setup.sql: sum of `remaining_credits` over the rows
matching `eligSql`. -/
def get_available_credits (ps : List Purchase) (uid now : Nat) : Int :=
  sumRemaining (ps.filter (eligSql uid now))

/-- The `available_credits` value computed by `handleGetCredits` in
api/credits.js (reduce over the active-purchases query, which filters only
on expiry and positive remaining credits, not on payment status). -/
def handleGetCreditsAvailable (ps : List Purchase) (uid now : Nat) : Int :=
  sumRemaining (ps.filter (eligJsStrict uid now))

/-- The `availableCredits` value computed by the analyze handlers'
or-null-expiry balance query. -/
def availJs (ps : List Purchase) (uid now : Nat) : Int :=
  sumRemaining (ps.filter (eligJs uid now))

/-- Spec-worded available balance, for comparison with the code:
"sum of `credits_remaining` over all Purchases for `owner` where
status=`completed` and (expires_at is null or expires_at > now)". -/
def specAvailableBalance (ps : List Purchase) (uid now : Nat) : Int :=
  sumRemaining (ps.filter fun p =>
    decide (p.userId = uid) &&
    decide (p.paymentStatus = PayStatus.completed) &&
    (match p.expiresAt with
     | some t => decide (now < t)
     | none => true))

/-- Insert into a list sorted by ascending `created_at`. -/
def insertByCreated (a : Purchase) : List Purchase → List Purchase
  | [] => [a]
  | b :: l =>
    if a.createdAt ≤ b.createdAt then a :: b :: l
    else b :: insertByCreated a l

/-- `ORDER BY created_at ASC` as an insertion sort. -/
def sortByCreated : List Purchase → List Purchase
  | [] => []
  | a :: l => insertByCreated a (sortByCreated l)

/-- `UPDATE credit_purchases SET remaining_credits = v WHERE id = i`. -/
def setRemaining (ps : List Purchase) (i : Nat) (v : Int) : List Purchase :=
  ps.map fun p => if p.pid = i then { p with remaining := v } else p

/-- Apply a list of single-row remaining-credits updates in order. -/
def applyUpdates (ps : List Purchase) : List (Nat × Int) → List Purchase
  | [] => ps
  | (i, v) :: rest => applyUpdates (setRemaining ps i v) rest

/-- `SELECT ... WHERE id = i` on the purchases table. -/
def findRow (ps : List Purchase) (i : Nat) : Option Purchase :=
  ps.find? fun p => decide (p.pid = i)

/-- The row returned by the SQL `use_credits` function:
`(success, message, purchase_id, subscription_id)`. -/
structure UseCreditsRow where
  success : Bool
  message : String
  purchase_id : Option Nat
  subscription_id : Option Nat
deriving DecidableEq, Repr

/-- The FIFO `FOR v_record IN ... LOOP` of the SQL `use_credits` function,
run over the eligible rows in ascending `created_at` order.  Returns the
list of single-row updates the loop issues together with
`(v_used_purchase_id, v_used_subscription_id)`: a fully-covering purchase
overwrites the ids unconditionally, a partially-consumed purchase sets them
only when they are still NULL. -/
def useCreditsLoop (need : Int) (accP accS : Option Nat) :
    List Purchase → List (Nat × Int) × Option Nat × Option Nat
  | [] => ([], accP, accS)
  | p :: rest =>
    if need ≤ 0 then ([], accP, accS)
    else if need ≤ p.remaining then
      ([(p.pid, p.remaining - need)], some p.pid, p.subscriptionId)
    else
      let accP' := if accP.isSome then accP else some p.pid
      let accS' := if accP.isSome then accS else p.subscriptionId
      let r := useCreditsLoop (need - p.remaining) accP' accS' rest
      ((p.pid, 0) :: r.1, r.2)

/-- The SQL function `use_credits(p_user_id, p_credits_to_use,
p_api_key_used)` of complete-database-setup.sql: immediate success when the
caller pays with their own API key; otherwise check the total available
credits, fail with `Insufficient credits` when short, else consume
oldest-first. -/
def use_credits (ps : List Purchase) (uid : Nat) (n : Int)
    (apiKeyUsed : Bool) (now : Nat) : UseCreditsRow × List Purchase :=
  if apiKeyUsed then
    (⟨true, "Using own API key", none, none⟩, ps)
  else if get_available_credits ps uid now < n then
    (⟨false, "Insufficient credits", none, none⟩, ps)
  else
    let elig := sortByCreated (ps.filter (eligSql uid now))
    let r := useCreditsLoop n none none elig
    (⟨true, "Credits deducted successfully", r.2.1, r.2.2⟩,
     applyUpdates ps r.1)

/-- Outcome of the part_000 optimistic-lock retry loop:
success with the ids of the purchase drawn from, the 402
`No valid credits found` path, or the 500 conflict path after the retries
are exhausted. -/
inductive ConsumeOutcome
  | success (purchase_id : Option Nat) (subscription_id : Option Nat)
  | noValidCredits
  | conflict
deriving DecidableEq, Repr

/-- One pass of part_000's `while (retries > 0 && !creditDeducted)` loop,
run sequentially: find the oldest eligible purchase, then attempt the
conditional update `eq(remaining_credits, snapshot)`.  `updErr` models the
store rejecting the conditional update on every attempt (sequentially the
optimistic lock itself cannot fail, so the update succeeds first try when
the store is healthy). -/
def retryLoopGo (ps : List Purchase) (uid now : Nat) (updErr : Bool) :
    Nat → ConsumeOutcome × List Purchase
  | 0 => (.conflict, ps)
  | retries + 1 =>
    match (sortByCreated (ps.filter (eligJs uid now))).head? with
    | none => (.noValidCredits, ps)
    | some p =>
      if updErr then
        if retries = 0 then (.conflict, ps)
        else retryLoopGo ps uid now updErr retries
      else
        (.success (some p.pid) p.subscriptionId,
         setRemaining ps p.pid (p.remaining - 1))

/-- part_000's single-credit consume (lines 239–294), with the code's
`retries = 3`. -/
def retryLoopConsume (ps : List Purchase) (uid now : Nat) (updErr : Bool) :
    ConsumeOutcome × List Purchase :=
  retryLoopGo ps uid now updErr 3

/-- `SELECT ... ORDER BY created_at ASC LIMIT 1 SINGLE` used by both
analyze-batch.js and part_000 to find the oldest eligible purchase. -/
def abFind (ps : List Purchase) (uid now : Nat) : Option Purchase :=
  (sortByCreated (ps.filter (eligJs uid now))).head?

/-- Result of the analyze-batch.js credit-deduction while-loop, carrying
the purchase state reached on each exit path (`failedDeduct` is the 402
`Failed to deduct credits` return, `updateError` the 500 return). -/
inductive AbResult
  | ok (ps : List Purchase)
  | failedDeduct (ps : List Purchase)
  | updateError (ps : List Purchase)
  | outOfFuel (ps : List Purchase)
deriving DecidableEq, Repr

/-- The purchase state carried by an `AbResult`. -/
def AbResult.state : AbResult → List Purchase
  | .ok ps => ps
  | .failedDeduct ps => ps
  | .updateError ps => ps
  | .outOfFuel ps => ps

/-- The `while (creditsToDeduct > 0)` loop of analyze-batch.js (lines
200–260): find the oldest eligible purchase, deduct
`min(creditsToDeduct, remaining_credits)` from it with an UNCONDITIONAL
update (no optimistic lock), and repeat.  `fuel` bounds the recursion; the
loop consumes at least one credit per iteration, so `fuel = creditsToDeduct`
always suffices.  `updErr` models the store rejecting the update. -/
def abLoop (uid now : Nat) (updErr : Bool) :
    Nat → Nat → List Purchase → AbResult
  | _, 0, ps => .ok ps
  | 0, _ + 1, ps => .outOfFuel ps
  | fuel + 1, toDeduct + 1, ps =>
    match abFind ps uid now with
    | none => .failedDeduct ps
    | some p =>
      if updErr then .updateError ps
      else
        let d := min (toDeduct + 1) p.remaining.toNat
        abLoop uid now updErr fuel (toDeduct + 1 - d)
          (setRemaining ps p.pid (p.remaining - (d : Int)))

/-- A row of the `api_usage` table, restricted to the columns the claims
read (the truncated context/response excerpts carry no ledger state). -/
structure UsageRow where
  userId : Nat
  purchase_id : Option Nat
  subscription_id : Option Nat
  credits_used : Int
  api_key_used : Bool
deriving DecidableEq, Repr

/-- The tables a billable-request handler touches. -/
structure LedgerDB where
  purchases : List Purchase
  usage : List UsageRow
deriving DecidableEq, Repr

/-- HTTP responses of the analyze handlers, restricted to what the claims
distinguish: 200 with the reported remaining balance, the 402
insufficient-credits family, 429, and 500. -/
inductive Resp
  | r200 (remaining : Option Int)
  | r402 (available : Int)
  | r429
  | r500
deriving DecidableEq, Repr

/-- `true` exactly on the 402 insufficient-credits responses. -/
def Resp.insufficient : Resp → Bool
  | .r402 _ => true
  | _ => false

/-- The part_000 analyze handler (lines 116–337), from the credit pre-check
onwards.  Control flow, in source order: pre-compute balance check (strict
expiry, no status filter) unless the caller supplied their own API key;
the OpenAI call (`compute`, whose failure statuses route through the catch
block: 429 stays 429, anything else becomes 500); for credit-funded
requests the post-compute balance check — whose store error `checkErr` is
returned as the 402 insufficient-credits response — then the
optimistic-lock retry loop; the `api_usage` insert, which writes the OUTER
`purchaseId`/`subscriptionId` bindings that the loop's inner `let`
declarations shadow, so both are always NULL; finally the updated-balance
read.  Log-write errors are ignored by the source and not modelled. -/
def part000Handler (uid now : Nat) (ownKey checkErr updErr : Bool)
    (compute : Except Nat Unit) (db : LedgerDB) : Resp × LedgerDB :=
  if ownKey = false ∧ handleGetCreditsAvailable db.purchases uid now < 1 then
    (.r402 0, db)
  else
    match compute with
    | .error s => (if s = 429 then .r429 else .r500, db)
    | .ok _ =>
      if ownKey then
        let db' := { db with
          usage := db.usage ++ [⟨uid, none, none, 1, true⟩] }
        (.r200 (some (handleGetCreditsAvailable db'.purchases uid now)), db')
      else if checkErr then (.r402 0, db)
      else if availJs db.purchases uid now < 1 then
        (.r402 (availJs db.purchases uid now), db)
      else
        match retryLoopConsume db.purchases uid now updErr with
        | (.noValidCredits, _) => (.r402 0, db)
        | (.conflict, _) => (.r500, db)
        | (.success _ _, ps') =>
          let db' : LedgerDB :=
            { purchases := ps',
              usage := db.usage ++ [⟨uid, none, none, 1, false⟩] }
          (.r200 (some (handleGetCreditsAvailable ps' uid now)), db')

/-- The analyze-batch.js handler (lines 102–300), from the credit check
onwards, tracking only the purchases table: balance pre-check against the
number of images unless the caller supplied their own API key; the batch
OpenAI call; then the unconditional-update deduction loop. -/
def analyzeBatchHandler (uid now : Nat) (ownKey updErr : Bool)
    (nImages : Nat) (compute : Except Nat Unit) (ps : List Purchase) :
    Resp × List Purchase :=
  if ownKey = false ∧ availJs ps uid now < (nImages : Int) then
    (.r402 (availJs ps uid now), ps)
  else
    match compute with
    | .error s => (if s = 429 then .r429 else .r500, ps)
    | .ok _ =>
      if ownKey then (.r200 none, ps)
      else
        match abLoop uid now updErr nImages nImages ps with
        | .ok ps' => (.r200 (some (availJs ps' uid now)), ps')
        | .failedDeduct ps' => (.r402 0, ps')
        | .updateError ps' => (.r500, ps')
        | .outOfFuel ps' => (.r500, ps')

/-- The SQL function `decrement_credit` of sql/decrement_credit.sql: lock
the row, fail when it is missing or short of credits (the EXCEPTION block
turns that into `success := false` with no change), else decrement. -/
def decrement_credit (ps : List Purchase) (i : Nat) (amount : Int) :
    Bool × List Purchase :=
  match findRow ps i with
  | none => (false, ps)
  | some p =>
    if p.remaining < amount then (false, ps)
    else (true, setRemaining ps i (p.remaining - amount))

/-- The `status` column of `subscriptions`. -/
inductive SubStatus
  | active
  | past_due
  | cancelled
  | expired
  | incomplete
deriving DecidableEq, Repr

/-- A row of the `subscriptions` table, restricted to the columns the
webhook and coupon code read. -/
structure Subscription where
  sid : Nat
  userId : Nat
  stripeSubscriptionId : Nat
  status : SubStatus
  currentPeriodEnd : Nat
  creditsPerPeriod : Int
deriving DecidableEq, Repr

/-- A row of the `subscription_history` table (`stripe_event_id` is
UNIQUE in complete-database-setup.sql). -/
structure HistoryRow where
  subscriptionId : Nat
  userId : Nat
  eventType : String
  stripeEventId : Nat
deriving DecidableEq, Repr

/-- The tables the webhook and coupon handlers touch.  `nextId` supplies
the next generated row id. -/
structure WebhookDB where
  subs : List Subscription
  purchases : List Purchase
  history : List HistoryRow
  nextId : Nat
deriving DecidableEq, Repr

/-- A Stripe invoice, restricted to the fields
`handleInvoicePaymentSucceeded` reads. -/
structure Invoice where
  invoiceId : Nat
  subscriptionRef : Option Nat
  billingReason : String
  periodEnd : Nat
deriving DecidableEq, Repr

/-- Insert into `subscription_history`; the UNIQUE constraint on
`stripe_event_id` rejects a duplicate, and every caller in part_002 ignores
the insert's error, so a rejected insert leaves the state unchanged. -/
def insertHistory (db : WebhookDB) (row : HistoryRow) : WebhookDB :=
  if db.history.any fun h => decide (h.stripeEventId = row.stripeEventId) then
    db
  else { db with history := db.history ++ [row] }

/-- part_002 `handleInvoicePaymentSucceeded` (lines 298–347): on a
`subscription_cycle` invoice for a known subscription, set the subscription
active, insert a fresh completed credit purchase for the period, and log a
`renewed` history row keyed by the invoice id.  No dedupe check precedes
the mutations.  (The source also resets the vestigial
`subscriptions.remaining_credits` to 0 and is a no-op on the other
branches.) -/
def handleInvoicePaymentSucceeded (inv : Invoice) (now : Nat)
    (db : WebhookDB) : WebhookDB :=
  match inv.subscriptionRef with
  | none => db
  | some sref =>
    match db.subs.find? fun s => decide (s.stripeSubscriptionId = sref) with
    | none => db
    | some s =>
      if inv.billingReason = "subscription_cycle" then
        let db1 := { db with subs := db.subs.map fun t : Subscription =>
          if t.sid = s.sid then { t with status := SubStatus.active } else t }
        let newPurchase : Purchase :=
          { pid := db1.nextId
            userId := s.userId
            subscriptionId := some s.sid
            credits := s.creditsPerPeriod
            remaining := s.creditsPerPeriod
            expiresAt := some inv.periodEnd
            paymentStatus := PayStatus.completed
            createdAt := now }
        let db2 := { db1 with
          purchases := db1.purchases ++ [newPurchase]
          nextId := db1.nextId + 1 }
        insertHistory db2 ⟨s.sid, s.userId, "renewed", inv.invoiceId⟩
      else db

/-- The coupon-redemption handler (part_004): reject when the owner already
has an active, unexpired subscription; otherwise create an active
subscription and a completed credit purchase carrying `proCredits`
(`remaining_credits = credits`), and log a `created` history row. -/
def couponRedeem (uid now periodEnd : Nat) (proCredits : Int)
    (eventId : Nat) (db : WebhookDB) : WebhookDB × Bool :=
  if db.subs.any fun s =>
      decide (s.userId = uid) && decide (s.status = SubStatus.active) &&
      decide (now < s.currentPeriodEnd) then
    (db, false)
  else
    let newSub : Subscription :=
      { sid := db.nextId
        userId := uid
        stripeSubscriptionId := eventId
        status := SubStatus.active
        currentPeriodEnd := periodEnd
        creditsPerPeriod := proCredits }
    let newPurchase : Purchase :=
      { pid := db.nextId + 1
        userId := uid
        subscriptionId := some newSub.sid
        credits := proCredits
        remaining := proCredits
        expiresAt := some periodEnd
        paymentStatus := PayStatus.completed
        createdAt := now }
    let db1 : WebhookDB :=
      { subs := db.subs ++ [newSub]
        purchases := db.purchases ++ [newPurchase]
        history := db.history
        nextId := db.nextId + 2 }
    (insertHistory db1 ⟨newSub.sid, uid, "created", eventId⟩, true)

/-- Where a single-credit deduction thread stands: about to run the
find-oldest-purchase query, about to issue the update carrying the
snapshot it read, finished successfully, or returned an error response. -/
inductive Phase
  | toFind
  | toWrite (snap : Purchase)
  | succeeded
  | failedOut
deriving DecidableEq, Repr

/-- One request handler's deduction thread (`retries` is part_000's retry
budget; the analyze-batch loop has none). -/
structure Thread where
  phase : Phase
  retries : Nat
deriving DecidableEq, Repr

/-- Shared purchases table plus the per-request threads. -/
structure ConcState where
  purchases : List Purchase
  threads : List Thread
deriving DecidableEq, Repr

/-- One step of a single-credit analyze-batch deduction (lines 200–239):
the find captures a snapshot; the write UNCONDITIONALLY stores
`snapshot.remaining - 1` and reports success. -/
def stepPlain (uid now : Nat) (s : ConcState) (t : Thread) :
    ConcState × Thread :=
  match t.phase with
  | .toFind =>
    match abFind s.purchases uid now with
    | none => (s, { t with phase := .failedOut })
    | some p => (s, { t with phase := .toWrite p })
  | .toWrite snap =>
    ({ s with purchases :=
        setRemaining s.purchases snap.pid (snap.remaining - 1) },
     { t with phase := .succeeded })
  | _ => (s, t)

/-- One step of part_000's retry loop (lines 245–294): the write carries
the optimistic lock `eq(remaining_credits, snapshot.remaining)`; on a
conflict the thread re-finds while `retries > 1`, else fails out (the 500
return). -/
def stepCAS (uid now : Nat) (s : ConcState) (t : Thread) :
    ConcState × Thread :=
  match t.phase with
  | .toFind =>
    match abFind s.purchases uid now with
    | none => (s, { t with phase := .failedOut })
    | some p => (s, { t with phase := .toWrite p })
  | .toWrite snap =>
    match findRow s.purchases snap.pid with
    | some cur =>
      if cur.remaining = snap.remaining then
        ({ s with purchases :=
            setRemaining s.purchases snap.pid (snap.remaining - 1) },
         { t with phase := .succeeded })
      else if 1 < t.retries then
        (s, { phase := .toFind, retries := t.retries - 1 })
      else (s, { t with phase := .failedOut })
    | none =>
      if 1 < t.retries then (s, { phase := .toFind, retries := t.retries - 1 })
      else (s, { t with phase := .failedOut })
  | _ => (s, t)

/-- Run a schedule: each entry names the thread that takes the next step
(indices out of range and finished threads are no-ops). -/
def runSched (step : ConcState → Thread → ConcState × Thread) :
    ConcState → List Nat → ConcState
  | s, [] => s
  | s, i :: rest =>
    match s.threads[i]? with
    | none => runSched step s rest
    | some t =>
      let r := step s t
      runSched step { r.1 with threads := s.threads.set i r.2 } rest

/-- How many threads finished successfully (billed the user one unit). -/
def countSuccesses (s : ConcState) : Nat :=
  s.threads.countP fun t => decide (t.phase = Phase.succeeded)

/-- An owner with one completed, unexpired purchase of balance 1. -/
def onePurchase : List Purchase :=
  [⟨1, 7, none, 1, 1, some 100, PayStatus.completed, 0⟩]

/-- Two concurrent single-credit deduction threads over `onePurchase`. -/
def twoThreads : ConcState :=
  ⟨onePurchase, [⟨Phase.toFind, 3⟩, ⟨Phase.toFind, 3⟩]⟩

/-- The webhook state before the renewal invoice arrives: one active
subscription (stripe ref 77, 200 credits per period), no purchases. -/
def renewalDb : WebhookDB := ⟨[⟨1, 7, 77, SubStatus.active, 100, 200⟩], [], [], 10⟩

/-- A `subscription_cycle` renewal invoice for that subscription. -/
def renewalInvoice : Invoice := ⟨500, some 77, "subscription_cycle", 200⟩

/-- An owner whose only purchase is pending (not yet completed), unexpired,
with 5 remaining credits. -/
def pendingOnly : List Purchase :=
  [⟨1, 7, none, 5, 5, some 100, PayStatus.pending, 0⟩]

/-- An owner with one completed purchase, 5 remaining credits. -/
def healthyDb : LedgerDB :=
  ⟨[⟨3, 7, some 4, 5, 5, some 100, PayStatus.completed, 0⟩], []⟩

/-- The two-purchase FIFO scenario of the spec: P1 older (created 0) with
remaining r1, P2 newer (created 1) with remaining r2, both completed and
unexpired, same owner. -/
def fifoPair (uid now : Nat) (r1 r2 : Int) : List Purchase :=
  [⟨1, uid, none, r1, r1, some (now + 1), PayStatus.completed, 0⟩,
   ⟨2, uid, some 9, r2, r2, some (now + 1), PayStatus.completed, 1⟩]

/-- The state the FIFO scenario should end in: P1 drained to 0, P2 left
with `d2` remaining credits. -/
def fifoPairAfter (uid now : Nat) (r1 r2 d2 : Int) : List Purchase :=
  [⟨1, uid, none, r1, 0, some (now + 1), PayStatus.completed, 0⟩,
   ⟨2, uid, some 9, r2, d2, some (now + 1), PayStatus.completed, 1⟩]

/-- The per-row invariant of the spec: `0 ≤ remaining_credits ≤ credits`. -/
def PurchaseInv (p : Purchase) : Prop :=
  0 ≤ p.remaining ∧ p.remaining ≤ p.credits

/-- Every row of the table satisfies the per-row invariant. -/
def LedgerInv (ps : List Purchase) : Prop :=
  ∀ p ∈ ps, PurchaseInv p

/-- `q` is `p` with its remaining credits possibly lowered and every other
column unchanged. -/
def ShrinkP (p q : Purchase) : Prop :=
  q.remaining ≤ p.remaining ∧ q = { p with remaining := q.remaining }

/-- The table after an operation is the table before it, row by row, with
no row's remaining credits increased and no other column changed. -/
def Shrinks (ps ps' : List Purchase) : Prop :=
  List.Forall₂ ShrinkP ps ps'

/-- C1.  The claim requires that K = 2 concurrent single-credit consumes
against balance B = 1 produce exactly 1 success, with no purchase
decremented twice from one read.  The analyze-batch.js deduction loop
updates `remaining_credits` WITHOUT the optimistic-lock condition, so under
the find/find/write/write interleaving both threads succeed from the same
read — 2 successes from balance 1 — while the part_000 loop's conditional
update (`eq(remaining_credits, snapshot)`) admits exactly 1 success on the
same schedule.  This contradicts the claim (and the repo's own
decrement_credit.sql/part_000 comments about preventing exactly this
race), so the claim fails on analyze-batch.js: a code bug. -/
theorem c1_lost_update_eval :
    get_available_credits onePurchase 7 10 = 1 ∧
    countSuccesses (runSched (stepPlain 7 10) twoThreads [0, 1, 0, 1]) = 2 ∧
    countSuccesses (runSched (stepCAS 7 10) twoThreads [0, 1, 0, 1, 1, 1]) = 1 := by
  decide

/-- C3.  Delivering the same `invoice.payment_succeeded` renewal event
twice grants TWO credit purchases of 200 credits each: the handler never
checks the event log before mutating, and the `subscription_history` UNIQUE
constraint on the event id only stops the second history row (whose insert
error the code ignores), after the duplicate purchase was already
inserted.  The claim — replay is a no-op, dedupe before any mutation —
fails on the code: a code bug. -/
theorem c3_duplicate_invoice_eval :
    (handleInvoicePaymentSucceeded renewalInvoice 5
      (handleInvoicePaymentSucceeded renewalInvoice 5 renewalDb)).purchases.map
        Purchase.remaining = [200, 200] ∧
    (handleInvoicePaymentSucceeded renewalInvoice 5
      (handleInvoicePaymentSucceeded renewalInvoice 5 renewalDb)).history.length = 1 := by
  decide

/-- C4 counterexample.  The claim says the available-balance query counts
exactly the completed, unexpired purchases.  On an owner whose only
purchase is pending with 5 remaining credits, `handleGetCredits`
(api/credits.js, which never filters on payment_status) reports 5 while the
claimed characterisation gives 0. -/
theorem c4_pending_counted_counterexample :
    handleGetCreditsAvailable pendingOnly 7 10 = 5 ∧
    specAvailableBalance pendingOnly 7 10 = 0 := by
  decide

/-- C7 counterexample.  The claim says a store failure during a balance
check is surfaced as a 5xx and never as InsufficientCredits.  Running the
part_000 handler with the post-compute balance check erroring
(`checkErr = true`) on an owner who has 5 credits returns the 402
insufficient-credits response, not a 5xx. -/
theorem c7_check_error_402_counterexample :
    (part000Handler 7 10 false true false (Except.ok ()) healthyDb).1 =
      Resp.r402 0 ∧
    Resp.insufficient
      (part000Handler 7 10 false true false (Except.ok ()) healthyDb).1 = true := by
  decide

/-- C8.  A credit-funded request through the part_000 handler deducts one
credit from purchase 3 (remaining 5 → 4), yet the api_usage row it appends
carries `purchase_id = null` and `subscription_id = null`: the retry loop
re-declares `purchaseId`/`subscriptionId` with `let` inside its block,
shadowing the outer bindings the insert reads.  The claim — every
credit-funded usage row references the purchase drawn from — fails on this
handler: a code bug (part_001 and analyze-batch.js record the ids
correctly, and the outer `let purchaseId = null` shows the intent). -/
theorem c8_shadowed_purchase_id_eval :
    (findRow (part000Handler 7 10 false false false (Except.ok ()) healthyDb).2.purchases
        3).map Purchase.remaining = some 4 ∧
    (part000Handler 7 10 false false false (Except.ok ()) healthyDb).2.usage =
      [⟨7, none, none, 1, false⟩] := by
  decide

/-- C9 counterexample.  From a state whose only purchase is pending with
positive remaining credits, the database-side `use_credits` refuses
(`Insufficient credits`, state unchanged) while the request-handler retry
loop — which never filters on payment_status — deducts from that pending
purchase and succeeds.  The two consume implementations therefore disagree
on success versus insufficient-credits, refuting the claimed
equivalence. -/
theorem c9_pending_purchase_divergence :
    (use_credits pendingOnly 7 1 false 10).1.success = false ∧
    (use_credits pendingOnly 7 1 false 10).2 = pendingOnly ∧
    (retryLoopConsume pendingOnly 7 10 false).1 =
      ConsumeOutcome.success (some 1) none ∧
    (retryLoopConsume pendingOnly 7 10 false).2 ≠ pendingOnly := by
  decide

/-- C5.  In both analyze handlers the deduction code sits after the awaited
compute call, so on every execution path where the compute call fails
(any error status: timeout rejection, 429, 401, other) the request
terminates through the catch block with the purchases table — and, for
part_000, the whole database — exactly as it was.  Deduction is attempted
only in the success branch of the compute call. -/
theorem c5_no_deduction_on_compute_failure
    (uid now : Nat) (ownKey checkErr updErr : Bool) (e : Nat)
    (db : LedgerDB) (nImages : Nat) (ps : List Purchase) :
    (part000Handler uid now ownKey checkErr updErr (Except.error e) db).2 = db ∧
    (analyzeBatchHandler uid now ownKey updErr nImages (Except.error e) ps).2 = ps := by
  constructor
  · unfold part000Handler
    split
    · rfl
    · rfl
  · unfold analyzeBatchHandler
    split
    · rfl
    · rfl

/-- C10.  A request that supplies a caller-owned API key never touches the
credit ledger: in both analyze handlers the purchases table after the
request equals the table before it, the response is never the 402
insufficient-credits one (no balance check against the ledger decides the
request), and the database-side `use_credits` returns immediately with
`Using own API key` and an unchanged table. -/
theorem c10_own_key_frame
    (uid now : Nat) (checkErr updErr : Bool) (compute : Except Nat Unit)
    (db : LedgerDB) (nImages : Nat) (ps : List Purchase) (n : Int) :
    (part000Handler uid now true checkErr updErr compute db).2.purchases =
      db.purchases ∧
    Resp.insufficient
      (part000Handler uid now true checkErr updErr compute db).1 = false ∧
    (analyzeBatchHandler uid now true updErr nImages compute ps).2 = ps ∧
    Resp.insufficient
      (analyzeBatchHandler uid now true updErr nImages compute ps).1 = false ∧
    use_credits ps uid n true now =
      (⟨true, "Using own API key", none, none⟩, ps) := by
  cases compute with
  | error s =>
    by_cases h : s = 429 <;>
      simp [part000Handler, analyzeBatchHandler, use_credits, Resp.insufficient, h]
  | ok u =>
    simp [part000Handler, analyzeBatchHandler, use_credits, Resp.insufficient]

/-- C4 amended.  The database-side `get_available_credits` does return the
sum of `credits_remaining` over exactly the owner's completed, not-yet-
expired purchases (given that no purchase carries negative remaining
credits and every purchase has a non-null expiry, as the schema requires),
and it modifies no state; the request-handler balance queries
(`handleGetCredits` and the analyze pre-checks), however, omit the
payment-status filter, so pending and failed purchases with positive
remaining credits do contribute there. -/
theorem c4_sql_matches_spec (ps : List Purchase) (uid now : Nat)
    (hnn : ∀ p ∈ ps, 0 ≤ p.remaining)
    (hexp : ∀ p ∈ ps, p.expiresAt.isSome) :
    get_available_credits ps uid now = specAvailableBalance ps uid now := by
  induction ps with
  | nil => rfl
  | cons p l ih =>
    have hnl : ∀ q ∈ l, 0 ≤ q.remaining := fun q hq => hnn q (List.mem_cons_of_mem _ hq)
    have hel : ∀ q ∈ l, q.expiresAt.isSome := fun q hq => hexp q (List.mem_cons_of_mem _ hq)
    have hp : 0 ≤ p.remaining := hnn p (List.mem_cons_self p l)
    obtain ⟨t, ht⟩ := Option.isSome_iff_exists.mp (hexp p (List.mem_cons_self p l))
    have ihl := ih hnl hel
    simp only [get_available_credits, specAvailableBalance, sumRemaining,
      List.filter_cons] at ihl ⊢
    by_cases h1 : p.userId = uid <;>
      by_cases h2 : p.paymentStatus = PayStatus.completed <;>
        by_cases h3 : now < t <;>
          by_cases h4 : 0 < p.remaining <;>
            (simp [eligSql, ht, h1, h2, h3, h4, ihl]; try omega)

/-- Witness for the C4 amended theorem at a concrete two-purchase state
(one completed and one pending purchase). -/
theorem c4_sql_matches_spec_witness :
    (∀ p ∈ (⟨3, 7, some 4, 5, 5, some 100, PayStatus.completed, 0⟩ :: pendingOnly),
        0 ≤ p.remaining) ∧
    get_available_credits
        (⟨3, 7, some 4, 5, 5, some 100, PayStatus.completed, 0⟩ :: pendingOnly) 7 10 =
      specAvailableBalance
        (⟨3, 7, some 4, 5, 5, some 100, PayStatus.completed, 0⟩ :: pendingOnly) 7 10 :=
  ⟨by decide,
   c4_sql_matches_spec _ 7 10 (by decide) (by decide)⟩

lemma insertByCreated_ne_nil (a : Purchase) (l : List Purchase) :
    insertByCreated a l ≠ [] := by
  cases l with
  | nil => simp [insertByCreated]
  | cons b m =>
    simp only [insertByCreated]
    split
    · simp
    · simp

lemma sortByCreated_eq_nil_iff (l : List Purchase) :
    sortByCreated l = [] ↔ l = [] := by
  cases l with
  | nil => simp [sortByCreated]
  | cons a m => simp [sortByCreated, insertByCreated_ne_nil]

lemma retryLoopGo_updErr (ps : List Purchase) (uid now k : Nat)
    (h : (sortByCreated (ps.filter (eligJs uid now))).head?.isSome) :
    retryLoopGo ps uid now true k = (ConsumeOutcome.conflict, ps) := by
  obtain ⟨p, hp⟩ := Option.isSome_iff_exists.mp h
  induction k with
  | zero => simp [retryLoopGo]
  | succ m ih => simp [retryLoopGo, hp, ih]

/-- C7 amended.  A store failure during the deduction UPDATE is surfaced
as a 500 (after the retry budget is exhausted), but a store failure during
the post-compute balance check is reported as the 402 insufficient-credits
response — `if (checkError || availableCredits < 1) return 402` — contrary
to the original claim that a store error is never reported as
InsufficientCredits. -/
theorem c7_error_routing (uid now : Nat) (db : LedgerDB)
    (h1 : 1 ≤ handleGetCreditsAvailable db.purchases uid now)
    (h2 : 1 ≤ availJs db.purchases uid now) :
    (part000Handler uid now false true false (Except.ok ()) db).1 =
      Resp.r402 0 ∧
    (part000Handler uid now false false true (Except.ok ()) db).1 =
      Resp.r500 := by
  have hpre : ¬ (handleGetCreditsAvailable db.purchases uid now < 1) := by omega
  have hfil : db.purchases.filter (eligJs uid now) ≠ [] := by
    intro hf
    rw [availJs, hf] at h2
    simp [sumRemaining] at h2
  have hsorted : (sortByCreated (db.purchases.filter (eligJs uid now))).head?.isSome := by
    rw [Option.isSome_iff_exists]
    cases hs : (sortByCreated (db.purchases.filter (eligJs uid now))).head? with
    | none =>
      rw [List.head?_eq_none_iff, sortByCreated_eq_nil_iff] at hs
      exact absurd hs hfil
    | some p => exact ⟨p, rfl⟩
  have hcons : retryLoopConsume db.purchases uid now true =
      (ConsumeOutcome.conflict, db.purchases) :=
    retryLoopGo_updErr db.purchases uid now 3 hsorted
  constructor
  · simp [part000Handler, hpre]
  · simp only [part000Handler]
    rw [if_neg (by simp [hpre])]
    simp only [Bool.false_eq_true, if_false]
    rw [if_neg (by omega), hcons]

/-- Witness for the C7 amended theorem at a concrete healthy state. -/
theorem c7_error_routing_witness :
    1 ≤ handleGetCreditsAvailable healthyDb.purchases 7 10 ∧
    1 ≤ availJs healthyDb.purchases 7 10 ∧
    (part000Handler 7 10 false true false (Except.ok ()) healthyDb).1 =
      Resp.r402 0 ∧
    (part000Handler 7 10 false false true (Except.ok ()) healthyDb).1 =
      Resp.r500 :=
  ⟨by decide, by decide,
   (c7_error_routing 7 10 healthyDb (by decide) (by decide)).1,
   (c7_error_routing 7 10 healthyDb (by decide) (by decide)).2⟩

lemma insertByCreated_perm (a : Purchase) (l : List Purchase) :
    (insertByCreated a l).Perm (a :: l) := by
  induction l with
  | nil => simp [insertByCreated]
  | cons b m ih =>
    simp only [insertByCreated]
    split
    · exact List.Perm.refl _
    · exact (List.Perm.cons b ih).trans (List.Perm.swap a b m)

lemma sortByCreated_perm (l : List Purchase) : (sortByCreated l).Perm l := by
  induction l with
  | nil => simp [sortByCreated]
  | cons a m ih =>
    exact (insertByCreated_perm a (sortByCreated m)).trans (ih.cons a)

lemma sumRemaining_perm {l l' : List Purchase} (h : l.Perm l') :
    sumRemaining l = sumRemaining l' :=
  (h.map Purchase.remaining).sum_eq

lemma sumRemaining_nonneg (l : List Purchase)
    (h : ∀ p ∈ l, 0 ≤ p.remaining) : 0 ≤ sumRemaining l := by
  induction l with
  | nil => simp [sumRemaining]
  | cons p m ih =>
    have h1 := h p (List.mem_cons_self p m)
    have h2 := ih fun q hq => h q (List.mem_cons_of_mem _ hq)
    simp only [sumRemaining, List.map_cons, List.sum_cons] at h2 ⊢
    omega

lemma filter_elig_eq (ps : List Purchase) (uid now : Nat)
    (h : ∀ p ∈ ps, p.userId = uid → 0 < p.remaining →
      p.paymentStatus = PayStatus.completed ∧ p.expiresAt.isSome) :
    ps.filter (eligSql uid now) = ps.filter (eligJs uid now) := by
  apply List.filter_congr
  intro p hp
  by_cases h1 : p.userId = uid
  · by_cases h2 : 0 < p.remaining
    · obtain ⟨hc, he⟩ := h p hp h1 h2
      obtain ⟨t, ht⟩ := Option.isSome_iff_exists.mp he
      simp [eligSql, eligJs, h1, h2, hc, ht]
    · simp [eligSql, eligJs, h1, h2]
  · simp [eligSql, eligJs, h1]

/-- C9 amended.  Restricted to single-unit consumption from a state in
which every purchase of the owner with positive remaining credits is
completed with a non-null expiry, the database-side `use_credits` and the
request-handler retry loop are equivalent: both deduct one credit from the
same (oldest eligible) purchase, leave identical purchase states, report
the same purchase/subscription ids, and agree on success versus
insufficient-credits.  In general the two implementations diverge, because
the retry loop never filters on payment_status (see the counterexample
with a pending purchase). -/
theorem c9_equiv_on_completed (ps : List Purchase) (uid now : Nat)
    (h : ∀ p ∈ ps, p.userId = uid → 0 < p.remaining →
      p.paymentStatus = PayStatus.completed ∧ p.expiresAt.isSome) :
    (∃ i s, retryLoopConsume ps uid now false =
        (ConsumeOutcome.success (some i) s, (use_credits ps uid 1 false now).2) ∧
      (use_credits ps uid 1 false now).1 =
        ⟨true, "Credits deducted successfully", some i, s⟩) ∨
    (retryLoopConsume ps uid now false = (ConsumeOutcome.noValidCredits, ps) ∧
      use_credits ps uid 1 false now =
        (⟨false, "Insufficient credits", none, none⟩, ps)) := by
  have hfe := filter_elig_eq ps uid now h
  have hbridge : retryLoopConsume ps uid now false =
      retryLoopGo ps uid now false (2 + 1) := rfl
  cases hsort : sortByCreated (ps.filter (eligJs uid now)) with
  | nil =>
    right
    have hnil : ps.filter (eligJs uid now) = [] := by
      have hperm := sortByCreated_perm (ps.filter (eligJs uid now))
      rw [hsort] at hperm
      exact hperm.symm.eq_nil
    constructor
    · rw [hbridge]
      simp [retryLoopGo, hsort]
    · simp [use_credits, get_available_credits, hfe, hnil, sumRemaining]
  | cons p rest =>
    left
    have hperm := sortByCreated_perm (ps.filter (eligJs uid now))
    rw [hsort] at hperm
    have hmem : ∀ q ∈ p :: rest, q ∈ ps.filter (eligJs uid now) :=
      fun q hq => hperm.mem_iff.mp hq
    have helig : ∀ q ∈ p :: rest, 0 < q.remaining := by
      intro q hq
      have hq' := (List.mem_filter.mp (hmem q hq)).2
      simp only [eligJs, Bool.and_eq_true, decide_eq_true_eq] at hq'
      exact hq'.1.2
    have hppos : 0 < p.remaining := helig p (List.mem_cons_self p rest)
    have h1r : (1 : Int) ≤ p.remaining := hppos
    have htot : get_available_credits ps uid now = p.remaining + sumRemaining rest := by
      rw [get_available_credits, hfe, ← sumRemaining_perm hperm]
      simp [sumRemaining]
    have hge : ¬ (get_available_credits ps uid now < 1) := by
      have hnn := sumRemaining_nonneg rest
        fun q hq => le_of_lt (helig q (List.mem_cons_of_mem _ hq))
      omega
    have hu : use_credits ps uid 1 false now =
        (⟨true, "Credits deducted successfully", some p.pid, p.subscriptionId⟩,
         setRemaining ps p.pid (p.remaining - 1)) := by
      simp [use_credits, hge, hfe, hsort, useCreditsLoop, applyUpdates, h1r]
    have hr : retryLoopConsume ps uid now false =
        (ConsumeOutcome.success (some p.pid) p.subscriptionId,
         setRemaining ps p.pid (p.remaining - 1)) := by
      rw [hbridge]
      simp [retryLoopGo, hsort]
    exact ⟨p.pid, p.subscriptionId, by rw [hr, hu], by rw [hu]⟩

/-- Witness for the C9 amended theorem on a healthy completed-only
state. -/
theorem c9_equiv_on_completed_witness :
    (∀ p ∈ healthyDb.purchases, p.userId = 7 → 0 < p.remaining →
      p.paymentStatus = PayStatus.completed ∧ p.expiresAt.isSome) ∧
    ((∃ i s, retryLoopConsume healthyDb.purchases 7 10 false =
        (ConsumeOutcome.success (some i) s,
         (use_credits healthyDb.purchases 7 1 false 10).2) ∧
      (use_credits healthyDb.purchases 7 1 false 10).1 =
        ⟨true, "Credits deducted successfully", some i, s⟩) ∨
     (retryLoopConsume healthyDb.purchases 7 10 false =
        (ConsumeOutcome.noValidCredits, healthyDb.purchases) ∧
      use_credits healthyDb.purchases 7 1 false 10 =
        (⟨false, "Insufficient credits", none, none⟩, healthyDb.purchases))) :=
  ⟨by decide, c9_equiv_on_completed healthyDb.purchases 7 10 (by decide)⟩

/-- C2.  Consuming N credits from the two-purchase state P1 (older,
remaining r1), P2 (newer, remaining r2) with r1 < N ≤ r1 + r2, run without
interference, deducts exactly N credits in total, drains the older P1 to 0
and leaves the newer P2 with r2 − (N − r1): this holds both for the SQL
`use_credits` function (which also reports success and the ids of the
covering purchase) and for the analyze-batch.js while-loop.  Instantiated
at the spec's example r1 = 1, r2 = 10, N = 3 it gives P1 = 0, P2 = 8. -/
theorem c2_fifo_cross_purchase (uid now : Nat) (r1 r2 : Int) (n : Nat)
    (h1 : 0 < r1) (h2 : r1 < (n : Int)) (h3 : (n : Int) ≤ r1 + r2) :
    use_credits (fifoPair uid now r1 r2) uid (n : Int) false now =
      (⟨true, "Credits deducted successfully", some 2, some 9⟩,
       fifoPairAfter uid now r1 r2 (r2 - ((n : Int) - r1))) ∧
    sumRemaining (fifoPair uid now r1 r2) -
      sumRemaining (fifoPairAfter uid now r1 r2 (r2 - ((n : Int) - r1))) =
        (n : Int) ∧
    abLoop uid now false n n (fifoPair uid now r1 r2) =
      AbResult.ok (fifoPairAfter uid now r1 r2 (r2 - ((n : Int) - r1))) := by
  have hr2 : 0 < r2 := by omega
  have hfilS : (fifoPair uid now r1 r2).filter (eligSql uid now) =
      fifoPair uid now r1 r2 := by
    simp [fifoPair, eligSql, h1, hr2]
  have hfilJ : (fifoPair uid now r1 r2).filter (eligJs uid now) =
      fifoPair uid now r1 r2 := by
    simp [fifoPair, eligJs, h1, hr2]
  have hsc : sortByCreated (fifoPair uid now r1 r2) = fifoPair uid now r1 r2 := by
    simp [fifoPair, sortByCreated, insertByCreated]
  have htot : get_available_credits (fifoPair uid now r1 r2) uid now = r1 + r2 := by
    rw [get_available_credits, hfilS]
    simp [sumRemaining, fifoPair]
  have hn0 : ¬ ((n : Int) ≤ 0) := by omega
  have hnr1 : ¬ ((n : Int) ≤ r1) := by omega
  have hnr3 : ¬ ((n : Int) - r1 ≤ 0) := by omega
  have hlt : ¬ (get_available_credits (fifoPair uid now r1 r2) uid now < (n : Int)) := by
    rw [htot]; omega
  have h3' : (n : Int) - r1 ≤ r2 := by omega
  have hloop : useCreditsLoop (n : Int) none none (fifoPair uid now r1 r2) =
      ([(1, 0), (2, r2 - ((n : Int) - r1))], some 2, some 9) := by
    simp only [fifoPair, useCreditsLoop]
    rw [if_neg hn0, if_neg hnr1, if_neg hnr3, if_pos h3']
  have happ : ∀ v : Int, applyUpdates (fifoPair uid now r1 r2) [(1, 0), (2, v)] =
      fifoPairAfter uid now r1 r2 v := by
    intro v
    simp [applyUpdates, setRemaining, fifoPair, fifoPairAfter]
  refine ⟨?_, ?_, ?_⟩
  · rw [use_credits]
    rw [if_neg (by simp)]
    rw [if_neg hlt]
    simp only [hfilS, hsc, hloop, happ]
  · simp only [sumRemaining, fifoPair, fifoPairAfter, List.map_cons,
      List.map_nil, List.sum_cons, List.sum_nil]
    omega
  · obtain ⟨m, rfl⟩ : ∃ m, n = m + 2 := ⟨n - 2, by omega⟩
    rw [show m + 2 = m + 1 + 1 from rfl] at h2 h3 ⊢
    have hfind1 : abFind (fifoPair uid now r1 r2) uid now =
        some ⟨1, uid, none, r1, r1, some (now + 1), PayStatus.completed, 0⟩ := by
      rw [abFind, hfilJ, hsc]
      simp [fifoPair]
    have hmin1 : min (m + 1 + 1) r1.toNat = r1.toNat :=
      Nat.min_eq_right (by omega)
    obtain ⟨k, hk⟩ : ∃ k, m + 1 + 1 - r1.toNat = k + 1 :=
      ⟨m + 1 - r1.toNat, by omega⟩
    have hmid : setRemaining (fifoPair uid now r1 r2) 1 (r1 - (r1.toNat : Int)) =
        fifoPairAfter uid now r1 r2 r2 := by
      have hr1c : (r1.toNat : Int) = r1 := Int.toNat_of_nonneg h1.le
      simp [setRemaining, fifoPair, fifoPairAfter, hr1c]
    have hfind2 : abFind (fifoPairAfter uid now r1 r2 r2) uid now =
        some ⟨2, uid, some 9, r2, r2, some (now + 1), PayStatus.completed, 1⟩ := by
      simp [abFind, fifoPairAfter, eligJs, hr2, sortByCreated, insertByCreated]
    have hmin2 : min (k + 1) r2.toNat = k + 1 :=
      Nat.min_eq_left (by omega)
    have hkc : ((k + 1 : Nat) : Int) = ((m + 1 + 1 : Nat) : Int) - r1 := by omega
    have hlast : ∀ v : Int, setRemaining (fifoPairAfter uid now r1 r2 r2) 2 v =
        fifoPairAfter uid now r1 r2 v := by
      intro v
      simp [setRemaining, fifoPairAfter]
    have hstep1 : abLoop uid now false (m + 1 + 1) (m + 1 + 1)
        (fifoPair uid now r1 r2) =
        abLoop uid now false (m + 1) (k + 1) (fifoPairAfter uid now r1 r2 r2) := by
      conv_lhs =>
        simp only [abLoop, hfind1]
        rw [if_neg Bool.false_ne_true]
        simp only [hmin1, hmid, hk]
    have hstep2 : abLoop uid now false (m + 1) (k + 1)
        (fifoPairAfter uid now r1 r2 r2) =
        AbResult.ok (setRemaining (fifoPairAfter uid now r1 r2 r2) 2
          (r2 - ((k + 1 : Nat) : Int))) := by
      conv_lhs =>
        simp only [abLoop, hfind2]
        rw [if_neg Bool.false_ne_true]
        simp only [hmin2, Nat.sub_self]
        simp only [abLoop]
    rw [hstep1, hstep2, hkc, hlast]

/-- Witness for C2 at the spec's example: r1 = 1, r2 = 10, N = 3 gives
P1.remaining = 0, P2.remaining = 8, total deducted = 3. -/
theorem c2_fifo_cross_purchase_witness :
    (0 : Int) < 1 ∧ (1 : Int) < ((3 : Nat) : Int) ∧ ((3 : Nat) : Int) ≤ 1 + 10 ∧
    (use_credits (fifoPair 7 10 1 10) 7 ((3 : Nat) : Int) false 10 =
      (⟨true, "Credits deducted successfully", some 2, some 9⟩,
       fifoPairAfter 7 10 1 10 (10 - (((3 : Nat) : Int) - 1))) ∧
     sumRemaining (fifoPair 7 10 1 10) -
       sumRemaining (fifoPairAfter 7 10 1 10 (10 - (((3 : Nat) : Int) - 1))) =
         ((3 : Nat) : Int) ∧
     abLoop 7 10 false 3 3 (fifoPair 7 10 1 10) =
       AbResult.ok (fifoPairAfter 7 10 1 10 (10 - (((3 : Nat) : Int) - 1)))) :=
  ⟨by decide, by decide, by decide,
   c2_fifo_cross_purchase 7 10 1 10 3 (by decide) (by decide) (by decide)⟩

lemma ShrinkP_refl (p : Purchase) : ShrinkP p p :=
  ⟨le_refl _, rfl⟩

lemma Shrinks_refl (ps : List Purchase) : Shrinks ps ps :=
  List.forall₂_same.mpr fun p _ => ShrinkP_refl p

lemma ShrinkP_trans {p q r : Purchase} (h1 : ShrinkP p q) (h2 : ShrinkP q r) :
    ShrinkP p r := by
  obtain ⟨hle1, he1⟩ := h1
  obtain ⟨hle2, he2⟩ := h2
  refine ⟨le_trans hle2 hle1, ?_⟩
  rw [he2, he1]

lemma Shrinks_trans {ps qs rs : List Purchase}
    (h1 : Shrinks ps qs) (h2 : Shrinks qs rs) : Shrinks ps rs := by
  induction h1 generalizing rs with
  | nil =>
    cases h2
    exact List.Forall₂.nil
  | cons hpq hrest ih =>
    cases h2 with
    | cons hqr hrest2 => exact List.Forall₂.cons (ShrinkP_trans hpq hqr) (ih hrest2)

lemma Shrinks_map_pid {ps ps' : List Purchase} (h : Shrinks ps ps') :
    ps'.map Purchase.pid = ps.map Purchase.pid := by
  induction h with
  | nil => rfl
  | cons hpq _ ih =>
    simp only [List.map_cons, ih, List.cons.injEq, and_true]
    rw [hpq.2]

lemma setRemaining_shrinks (ps : List Purchase) (i : Nat) (v : Int)
    (h : ∀ p ∈ ps, p.pid = i → v ≤ p.remaining) :
    Shrinks ps (setRemaining ps i v) := by
  rw [Shrinks, setRemaining, List.forall₂_map_right_iff]
  rw [List.forall₂_same]
  intro p hp
  by_cases hpi : p.pid = i
  · rw [if_pos hpi]
    exact ⟨h p hp hpi, rfl⟩
  · rw [if_neg hpi]
    exact ShrinkP_refl p

lemma setRemaining_inv (ps : List Purchase) (i : Nat) (v : Int)
    (hInv : LedgerInv ps)
    (h : ∀ p ∈ ps, p.pid = i → 0 ≤ v ∧ v ≤ p.credits) :
    LedgerInv (setRemaining ps i v) := by
  intro q hq
  obtain ⟨p, hp, rfl⟩ := List.mem_map.mp hq
  by_cases hpi : p.pid = i
  · rw [if_pos hpi]
    exact ⟨(h p hp hpi).1, (h p hp hpi).2⟩
  · rw [if_neg hpi]
    exact hInv p hp

lemma setRemaining_map_pid (ps : List Purchase) (i : Nat) (v : Int) :
    (setRemaining ps i v).map Purchase.pid = ps.map Purchase.pid := by
  rw [setRemaining, List.map_map]
  apply List.map_congr_left
  intro p _
  by_cases hpi : p.pid = i
  · simp [hpi]
  · simp [hpi]

lemma useCreditsLoop_updates :
    ∀ (l : List Purchase), (∀ p ∈ l, 0 < p.remaining) →
      ∀ (need : Int) (accP accS : Option Nat),
        ((useCreditsLoop need accP accS l).1.map Prod.fst).Sublist
            (l.map Purchase.pid) ∧
        ∀ iv ∈ (useCreditsLoop need accP accS l).1, ∃ p ∈ l, p.pid = iv.1 ∧
          0 ≤ iv.2 ∧ iv.2 ≤ p.remaining
  | [], _, need, accP, accS => by simp [useCreditsLoop]
  | p :: rest, hl, need, accP, accS => by
    have hp := hl p (List.mem_cons_self p rest)
    have hl' : ∀ q ∈ rest, 0 < q.remaining :=
      fun q hq => hl q (List.mem_cons_of_mem _ hq)
    simp only [useCreditsLoop]
    by_cases h0 : need ≤ 0
    · rw [if_pos h0]
      simp
    · rw [if_neg h0]
      by_cases hcov : need ≤ p.remaining
      · rw [if_pos hcov]
        constructor
        · simp
        · intro iv hiv
          rw [List.mem_singleton] at hiv
          subst hiv
          exact ⟨p, List.mem_cons_self p rest, rfl, by omega, by omega⟩
      · rw [if_neg hcov]
        obtain ⟨ihs, ihb⟩ :=
          useCreditsLoop_updates rest hl' (need - p.remaining)
            (if accP.isSome then accP else some p.pid)
            (if accP.isSome then accS else p.subscriptionId)
        constructor
        · simpa using ihs.cons₂ p.pid
        · intro iv hiv
          rcases List.mem_cons.mp hiv with hiv | hiv
          · subst hiv
            exact ⟨p, List.mem_cons_self p rest, rfl, le_refl 0, by omega⟩
          · obtain ⟨q, hq, hqs⟩ := ihb iv hiv
            exact ⟨q, List.mem_cons_of_mem _ hq, hqs⟩

lemma applyUpdates_safe :
    ∀ (us : List (Nat × Int)) (ps : List Purchase),
      (us.map Prod.fst).Nodup →
      (∀ iv ∈ us, ∀ p ∈ ps, p.pid = iv.1 → 0 ≤ iv.2 ∧ iv.2 ≤ p.remaining) →
      LedgerInv ps →
      Shrinks ps (applyUpdates ps us) ∧ LedgerInv (applyUpdates ps us)
  | [], ps, _, _, hInv => ⟨Shrinks_refl ps, hInv⟩
  | (i, v) :: rest, ps, hnd, hb, hInv => by
    simp only [applyUpdates]
    have hhead : ∀ p ∈ ps, p.pid = i → 0 ≤ v ∧ v ≤ p.remaining :=
      fun p hp hpid => hb (i, v) (List.mem_cons_self _ _) p hp hpid
    have hs1 : Shrinks ps (setRemaining ps i v) :=
      setRemaining_shrinks ps i v fun p hp hpid => (hhead p hp hpid).2
    have hi1 : LedgerInv (setRemaining ps i v) :=
      setRemaining_inv ps i v hInv fun p hp hpid =>
        ⟨(hhead p hp hpid).1,
         le_trans (hhead p hp hpid).2 (hInv p hp).2⟩
    have hnd' : (rest.map Prod.fst).Nodup := by
      simp only [List.map_cons] at hnd
      exact (List.nodup_cons.mp hnd).2
    have hni : i ∉ rest.map Prod.fst := by
      simp only [List.map_cons] at hnd
      exact (List.nodup_cons.mp hnd).1
    have hbr : ∀ iv ∈ rest, ∀ q ∈ setRemaining ps i v, q.pid = iv.1 →
        0 ≤ iv.2 ∧ iv.2 ≤ q.remaining := by
      intro iv hiv q hq hqpid
      obtain ⟨p, hp, rfl⟩ := List.mem_map.mp hq
      by_cases hpi : p.pid = i
      · exfalso
        apply hni
        have hiv1 : iv.1 = i := by
          rw [← hqpid]
          simp [hpi]
        rw [← hiv1]
        exact List.mem_map_of_mem Prod.fst hiv
      · rw [if_neg hpi] at hqpid ⊢
        exact hb iv (List.mem_cons_of_mem _ hiv) p hp hqpid
    obtain ⟨hs2, hi2⟩ := applyUpdates_safe rest (setRemaining ps i v) hnd' hbr hi1
    exact ⟨Shrinks_trans hs1 hs2, hi2⟩

lemma abFind_mem {ps : List Purchase} {uid now : Nat} {p : Purchase}
    (h : abFind ps uid now = some p) : p ∈ ps ∧ 0 < p.remaining := by
  rw [abFind] at h
  have hm : p ∈ sortByCreated (ps.filter (eligJs uid now)) :=
    List.mem_of_mem_head? (by rw [h]; exact rfl)
  have hf := (sortByCreated_perm _).mem_iff.mp hm
  obtain ⟨hps, helig⟩ := List.mem_filter.mp hf
  refine ⟨hps, ?_⟩
  simp only [eligJs, Bool.and_eq_true, decide_eq_true_eq] at helig
  exact helig.1.2

lemma elig_pid_nodup (ps : List Purchase) (uid now : Nat)
    (hnd : (ps.map Purchase.pid).Nodup) :
    ((sortByCreated (ps.filter (eligSql uid now))).map Purchase.pid).Nodup := by
  have hperm : ((sortByCreated (ps.filter (eligSql uid now))).map Purchase.pid).Perm
      ((ps.filter (eligSql uid now)).map Purchase.pid) :=
    (sortByCreated_perm _).map Purchase.pid
  have hsub : ((ps.filter (eligSql uid now)).map Purchase.pid).Sublist
      (ps.map Purchase.pid) :=
    (List.filter_sublist ps).map Purchase.pid
  exact hperm.nodup_iff.mpr (hsub.nodup hnd)

lemma use_credits_safe (ps : List Purchase) (uid now : Nat) (n : Int)
    (hInv : LedgerInv ps) (hnd : (ps.map Purchase.pid).Nodup) :
    Shrinks ps (use_credits ps uid n false now).2 ∧
    LedgerInv (use_credits ps uid n false now).2 := by
  simp only [use_credits]
  rw [if_neg Bool.false_ne_true]
  by_cases hlt : get_available_credits ps uid now < n
  · rw [if_pos hlt]
    exact ⟨Shrinks_refl ps, hInv⟩
  · rw [if_neg hlt]
    have hl : ∀ p ∈ sortByCreated (ps.filter (eligSql uid now)), 0 < p.remaining := by
      intro p hp
      have hf := (sortByCreated_perm _).mem_iff.mp hp
      have helig := (List.mem_filter.mp hf).2
      simp only [eligSql, Bool.and_eq_true, decide_eq_true_eq] at helig
      exact helig.2
    obtain ⟨hsub, hb⟩ :=
      useCreditsLoop_updates (sortByCreated (ps.filter (eligSql uid now))) hl
        n none none
    have hndu : (((useCreditsLoop n none none
        (sortByCreated (ps.filter (eligSql uid now)))).1.map Prod.fst)).Nodup :=
      hsub.nodup (elig_pid_nodup ps uid now hnd)
    have hb' : ∀ iv ∈ (useCreditsLoop n none none
        (sortByCreated (ps.filter (eligSql uid now)))).1,
        ∀ q ∈ ps, q.pid = iv.1 → 0 ≤ iv.2 ∧ iv.2 ≤ q.remaining := by
      intro iv hiv q hq hqpid
      obtain ⟨p, hpmem, hppid, hb1, hb2⟩ := hb iv hiv
      have hpps : p ∈ ps :=
        (List.mem_filter.mp ((sortByCreated_perm _).mem_iff.mp hpmem)).1
      have : q = p :=
        List.inj_on_of_nodup_map hnd hq hpps (by rw [hqpid, hppid])
      subst this
      exact ⟨hb1, hb2⟩
    exact applyUpdates_safe _ ps hndu hb' hInv

lemma retryLoopGo_safe (ps : List Purchase) (uid now : Nat) (updErr : Bool)
    (hInv : LedgerInv ps) (hnd : (ps.map Purchase.pid).Nodup) :
    ∀ k, Shrinks ps (retryLoopGo ps uid now updErr k).2 ∧
      LedgerInv (retryLoopGo ps uid now updErr k).2 := by
  intro k
  induction k with
  | zero => exact ⟨Shrinks_refl ps, hInv⟩
  | succ m ih =>
    cases hh : (sortByCreated (ps.filter (eligJs uid now))).head? with
    | none =>
      simp only [retryLoopGo, hh]
      exact ⟨Shrinks_refl ps, hInv⟩
    | some p =>
      simp only [retryLoopGo, hh]
      obtain ⟨hpps, hppos⟩ : p ∈ ps ∧ 0 < p.remaining := abFind_mem hh
      by_cases hu : updErr = true
      · rw [if_pos hu]
        by_cases hm : m = 0
        · rw [if_pos hm]
          exact ⟨Shrinks_refl ps, hInv⟩
        · rw [if_neg hm]
          exact ih
      · rw [if_neg hu]
        have hcond : ∀ q ∈ ps, q.pid = p.pid →
            p.remaining - 1 ≤ q.remaining ∧ 0 ≤ p.remaining - 1 ∧
            p.remaining - 1 ≤ q.credits := by
          intro q hq hqpid
          have : q = p := List.inj_on_of_nodup_map hnd hq hpps hqpid
          subst this
          have hqc := (hInv q hq).2
          omega
        refine ⟨setRemaining_shrinks ps p.pid (p.remaining - 1)
            (fun q hq hqpid => (hcond q hq hqpid).1),
          setRemaining_inv ps p.pid (p.remaining - 1) hInv
            (fun q hq hqpid =>
              ⟨(hcond q hq hqpid).2.1, (hcond q hq hqpid).2.2⟩)⟩

lemma abLoop_safe (uid now : Nat) (updErr : Bool) :
    ∀ (fuel toDeduct : Nat) (ps : List Purchase),
      LedgerInv ps → (ps.map Purchase.pid).Nodup →
      Shrinks ps (abLoop uid now updErr fuel toDeduct ps).state ∧
      LedgerInv (abLoop uid now updErr fuel toDeduct ps).state
  | fuel, 0, ps, hInv, hnd => by
    simp only [abLoop, AbResult.state]
    exact ⟨Shrinks_refl ps, hInv⟩
  | 0, t + 1, ps, hInv, hnd => by
    simp only [abLoop, AbResult.state]
    exact ⟨Shrinks_refl ps, hInv⟩
  | fuel + 1, t + 1, ps, hInv, hnd => by
    cases hf : abFind ps uid now with
    | none =>
      simp only [abLoop, hf, AbResult.state]
      exact ⟨Shrinks_refl ps, hInv⟩
    | some p =>
      simp only [abLoop, hf]
      obtain ⟨hpps, hppos⟩ := abFind_mem hf
      by_cases hu : updErr = true
      · rw [if_pos hu]
        simp only [AbResult.state]
        exact ⟨Shrinks_refl ps, hInv⟩
      · rw [if_neg hu]
        have hd : ((min (t + 1) p.remaining.toNat : Nat) : Int) ≤ p.remaining := by
          have : min (t + 1) p.remaining.toNat ≤ p.remaining.toNat :=
            Nat.min_le_right _ _
          omega
        have hcond : ∀ q ∈ ps, q.pid = p.pid →
            p.remaining - ((min (t + 1) p.remaining.toNat : Nat) : Int) ≤
              q.remaining ∧
            0 ≤ p.remaining - ((min (t + 1) p.remaining.toNat : Nat) : Int) ∧
            p.remaining - ((min (t + 1) p.remaining.toNat : Nat) : Int) ≤
              q.credits := by
          intro q hq hqpid
          have : q = p := List.inj_on_of_nodup_map hnd hq hpps hqpid
          subst this
          have hqc := (hInv q hq).2
          omega
        have hs1 : Shrinks ps (setRemaining ps p.pid
            (p.remaining - ((min (t + 1) p.remaining.toNat : Nat) : Int))) :=
          setRemaining_shrinks ps p.pid _
            (fun q hq hqpid => (hcond q hq hqpid).1)
        have hi1 : LedgerInv (setRemaining ps p.pid
            (p.remaining - ((min (t + 1) p.remaining.toNat : Nat) : Int))) :=
          setRemaining_inv ps p.pid _ hInv
            (fun q hq hqpid => ⟨(hcond q hq hqpid).2.1, (hcond q hq hqpid).2.2⟩)
        have hnd1 : ((setRemaining ps p.pid
            (p.remaining - ((min (t + 1) p.remaining.toNat : Nat) : Int))).map
              Purchase.pid).Nodup := by
          rw [setRemaining_map_pid]
          exact hnd
        obtain ⟨hs2, hi2⟩ := abLoop_safe uid now updErr fuel
          (t + 1 - min (t + 1) p.remaining.toNat)
          (setRemaining ps p.pid
            (p.remaining - ((min (t + 1) p.remaining.toNat : Nat) : Int)))
          hi1 hnd1
        exact ⟨Shrinks_trans hs1 hs2, hi2⟩

lemma decrement_credit_safe (ps : List Purchase) (i : Nat) (amount : Int)
    (hInv : LedgerInv ps) (hnd : (ps.map Purchase.pid).Nodup)
    (hamt : 0 ≤ amount) :
    Shrinks ps (decrement_credit ps i amount).2 ∧
    LedgerInv (decrement_credit ps i amount).2 := by
  cases hf : findRow ps i with
  | none =>
    simp only [decrement_credit, hf]
    exact ⟨Shrinks_refl ps, hInv⟩
  | some p =>
    simp only [decrement_credit, hf]
    have hpps : p ∈ ps := List.mem_of_find?_eq_some hf
    have hppid : p.pid = i := by
      have := List.find?_some hf
      simpa using this
    by_cases hshort : p.remaining < amount
    · rw [if_pos hshort]
      exact ⟨Shrinks_refl ps, hInv⟩
    · rw [if_neg hshort]
      have hcond : ∀ q ∈ ps, q.pid = i →
          p.remaining - amount ≤ q.remaining ∧ 0 ≤ p.remaining - amount ∧
          p.remaining - amount ≤ q.credits := by
        intro q hq hqpid
        have : q = p := List.inj_on_of_nodup_map hnd hq hpps (by rw [hqpid, hppid])
        subst this
        have hqc := (hInv q hq).2
        omega
      exact ⟨setRemaining_shrinks ps i _ (fun q hq hqpid => (hcond q hq hqpid).1),
        setRemaining_inv ps i _ hInv
          (fun q hq hqpid => ⟨(hcond q hq hqpid).2.1, (hcond q hq hqpid).2.2⟩)⟩

lemma insertHistory_purchases (db : WebhookDB) (row : HistoryRow) :
    (insertHistory db row).purchases = db.purchases := by
  rw [insertHistory]
  split
  · rfl
  · rfl

lemma handleInvoicePaymentSucceeded_grant (inv : Invoice) (now : Nat)
    (db : WebhookDB)
    (hsubs : ∀ s ∈ db.subs, 0 ≤ s.creditsPerPeriod)
    (hInv : LedgerInv db.purchases) :
    ∃ tail, (handleInvoicePaymentSucceeded inv now db).purchases =
        db.purchases ++ tail ∧
      LedgerInv (handleInvoicePaymentSucceeded inv now db).purchases ∧
      ∀ p ∈ tail, p.remaining = p.credits := by
  cases hsr : inv.subscriptionRef with
  | none =>
    have heq : handleInvoicePaymentSucceeded inv now db = db := by
      simp only [handleInvoicePaymentSucceeded, hsr]
    rw [heq]
    exact ⟨[], by simp, hInv, by simp⟩
  | some sref =>
    cases hfind : db.subs.find? (fun s => decide (s.stripeSubscriptionId = sref)) with
    | none =>
      have heq : handleInvoicePaymentSucceeded inv now db = db := by
        simp only [handleInvoicePaymentSucceeded, hsr, hfind]
      rw [heq]
      exact ⟨[], by simp, hInv, by simp⟩
    | some s =>
      have hsmem : s ∈ db.subs := List.mem_of_find?_eq_some hfind
      have hcred : 0 ≤ s.creditsPerPeriod := hsubs s hsmem
      by_cases hbr : inv.billingReason = "subscription_cycle"
      · have heq : (handleInvoicePaymentSucceeded inv now db).purchases =
            db.purchases ++ [⟨db.nextId, s.userId, some s.sid,
              s.creditsPerPeriod, s.creditsPerPeriod, some inv.periodEnd,
              PayStatus.completed, now⟩] := by
          simp only [handleInvoicePaymentSucceeded, hsr, hfind, if_pos hbr,
            insertHistory_purchases]
        rw [heq]
        refine ⟨_, rfl, ?_, ?_⟩
        · intro p hp
          rcases List.mem_append.mp hp with hp | hp
          · exact hInv p hp
          · rw [List.mem_singleton] at hp
            subst hp
            exact ⟨hcred, le_refl _⟩
        · intro p hp
          rw [List.mem_singleton] at hp
          subst hp
          rfl
      · have heq : handleInvoicePaymentSucceeded inv now db = db := by
          simp only [handleInvoicePaymentSucceeded, hsr, hfind, if_neg hbr]
        rw [heq]
        exact ⟨[], by simp, hInv, by simp⟩

lemma couponRedeem_grant (uid now periodEnd : Nat) (pro : Int) (eid : Nat)
    (db : WebhookDB) (hpro : 0 ≤ pro) (hInv : LedgerInv db.purchases) :
    ∃ tail, (couponRedeem uid now periodEnd pro eid db).1.purchases =
        db.purchases ++ tail ∧
      LedgerInv (couponRedeem uid now periodEnd pro eid db).1.purchases ∧
      ∀ p ∈ tail, p.remaining = p.credits := by
  rw [couponRedeem]
  split
  · exact ⟨[], by simp, hInv, by simp⟩
  · rw [insertHistory_purchases]
    refine ⟨[⟨db.nextId + 1, uid, some db.nextId, pro, pro, some periodEnd,
        PayStatus.completed, now⟩], rfl, ?_, ?_⟩
    · intro p hp
      rcases List.mem_append.mp hp with hp | hp
      · exact hInv p hp
      · rw [List.mem_singleton] at hp
        subst hp
        exact ⟨hpro, le_refl _⟩
    · intro p hp
      rw [List.mem_singleton] at hp
      subst hp
      rfl

/-- C6.  Every mutating operation of the system preserves the per-row
invariant `0 ≤ credits_remaining ≤ credits` and only ever lowers
`credits_remaining` of existing rows (`Shrinks` additionally pins all
other columns), while the grant operations (webhook renewal, coupon
redemption) append fresh rows created with `remaining = credits` and leave
existing rows untouched.  Covered: the SQL `use_credits`, the part_000
retry loop (any retry budget), the analyze-batch while-loop (any fuel and
batch size, on either exit path), the SQL `decrement_credit`, the renewal
webhook and the coupon handler; the balance queries are pure functions of
the table by construction.  Hypotheses: the invariant holds beforehand,
row ids are unique, and granted amounts are non-negative, as the schema
and callers guarantee. -/
theorem c6_remaining_invariant
    (ps : List Purchase) (uid now fuel nUnits k : Nat) (n amount : Int)
    (i : Nat) (updErr : Bool) (db : WebhookDB) (inv : Invoice)
    (t pe eid : Nat) (pro : Int)
    (hInv : LedgerInv ps) (hnd : (ps.map Purchase.pid).Nodup)
    (hamt : 0 ≤ amount)
    (hsubs : ∀ s ∈ db.subs, 0 ≤ s.creditsPerPeriod)
    (hdbInv : LedgerInv db.purchases)
    (hpro : 0 ≤ pro) :
    (Shrinks ps (use_credits ps uid n false now).2 ∧
      LedgerInv (use_credits ps uid n false now).2) ∧
    (Shrinks ps (retryLoopGo ps uid now updErr k).2 ∧
      LedgerInv (retryLoopGo ps uid now updErr k).2) ∧
    (Shrinks ps (abLoop uid now updErr fuel nUnits ps).state ∧
      LedgerInv (abLoop uid now updErr fuel nUnits ps).state) ∧
    (Shrinks ps (decrement_credit ps i amount).2 ∧
      LedgerInv (decrement_credit ps i amount).2) ∧
    (∃ tail, (handleInvoicePaymentSucceeded inv t db).purchases =
        db.purchases ++ tail ∧
      LedgerInv (handleInvoicePaymentSucceeded inv t db).purchases ∧
      ∀ p ∈ tail, p.remaining = p.credits) ∧
    (∃ tail, (couponRedeem uid t pe pro eid db).1.purchases =
        db.purchases ++ tail ∧
      LedgerInv (couponRedeem uid t pe pro eid db).1.purchases ∧
      ∀ p ∈ tail, p.remaining = p.credits) :=
  ⟨use_credits_safe ps uid now n hInv hnd,
   retryLoopGo_safe ps uid now updErr hInv hnd k,
   abLoop_safe uid now updErr fuel nUnits ps hInv hnd,
   decrement_credit_safe ps i amount hInv hnd hamt,
   handleInvoicePaymentSucceeded_grant inv t db hsubs hdbInv,
   couponRedeem_grant uid t pe pro eid db hpro hdbInv⟩

/-- Witness for C6 at a concrete state: one purchase of 1 credit, the
renewal webhook state, and the coupon parameters of the source defaults. -/
theorem c6_remaining_invariant_witness :
    (LedgerInv onePurchase ∧ (onePurchase.map Purchase.pid).Nodup ∧
      (0 : Int) ≤ 1 ∧
      (∀ s ∈ renewalDb.subs, 0 ≤ s.creditsPerPeriod) ∧
      LedgerInv renewalDb.purchases ∧ (0 : Int) ≤ 200) ∧
    ((Shrinks onePurchase (use_credits onePurchase 7 1 false 10).2 ∧
        LedgerInv (use_credits onePurchase 7 1 false 10).2) ∧
      (Shrinks onePurchase (retryLoopGo onePurchase 7 10 false 3).2 ∧
        LedgerInv (retryLoopGo onePurchase 7 10 false 3).2) ∧
      (Shrinks onePurchase (abLoop 7 10 false 1 1 onePurchase).state ∧
        LedgerInv (abLoop 7 10 false 1 1 onePurchase).state) ∧
      (Shrinks onePurchase (decrement_credit onePurchase 1 1).2 ∧
        LedgerInv (decrement_credit onePurchase 1 1).2) ∧
      (∃ tail, (handleInvoicePaymentSucceeded renewalInvoice 5
          renewalDb).purchases = renewalDb.purchases ++ tail ∧
        LedgerInv (handleInvoicePaymentSucceeded renewalInvoice 5
          renewalDb).purchases ∧
        ∀ p ∈ tail, p.remaining = p.credits) ∧
      (∃ tail, (couponRedeem 7 5 50 200 900 renewalDb).1.purchases =
          renewalDb.purchases ++ tail ∧
        LedgerInv (couponRedeem 7 5 50 200 900 renewalDb).1.purchases ∧
        ∀ p ∈ tail, p.remaining = p.credits)) :=
  ⟨⟨by simp [LedgerInv, PurchaseInv, onePurchase], by decide, by decide,
    by decide, by simp [LedgerInv, renewalDb], by decide⟩,
   c6_remaining_invariant onePurchase 7 10 1 1 3 1 1 1 false renewalDb
     renewalInvoice 5 50 900 200
     (by simp [LedgerInv, PurchaseInv, onePurchase]) (by decide) (by decide)
     (by decide) (by simp [LedgerInv, renewalDb]) (by decide)⟩

end Sidekick
